import Mathlib

/-!
Verification of the KMS-backed transaction signing and broadcast subsystem
(`mainapps/blockchain/kms_signer.py` and its callers).

Modelling conventions:
* Byte strings are `List ℕ` with entries below 256 where it matters.
* Checksummed hex address strings are modelled by their underlying 20 bytes:
  `to_checksum_address` is deterministic and injective on the bytes, so string
  equality of checksummed (or lowercased) addresses coincides with equality of
  the byte lists, and `bytes.fromhex(addr[2:])` recovers exactly these bytes.
* Remote calls (KMS, the JSON-RPC node) are oracles supplied through
  environment records; an exception raised by a call is `none` / `.error`.
* Python `int` arithmetic is ℕ/ℤ arithmetic (it is unbounded in Python).
-/

namespace GoldenB

abbrev Bytes := List Nat

abbrev Addr := List Nat

/-- secp256k1 group order; constant `SECP256K1_N` of `kms_signer.py`. -/
def SECP256K1_N : Nat :=
  0xFFFFFFFFFFFFFFFFFFFFFFFFFFFFFFFEBAAEDCE6AF48A03BBFD25E8CD0364141

/-! ### RLP encoding (the `rlp` library as used by `sign_transaction`)

`rlp.encode` on the payload lists built in `sign_transaction` serializes
non-negative integers as minimal big-endian byte strings (zero becomes the
empty string), byte strings with the standard RLP length headers, and Python
lists as RLP lists. -/

/-- Structural helper for `natToBE`: `n / 256 < n` for positive `n`, so fuel
`n` always suffices. -/
def natToBEAux : Nat → Nat → Bytes
  | 0, _ => []
  | fuel + 1, n => if n = 0 then [] else natToBEAux fuel (n / 256) ++ [n % 256]

/-- Minimal big-endian byte representation of a natural number; `0 ↦ []`. -/
def natToBE (n : Nat) : Bytes :=
  natToBEAux n n

theorem natToBEAux_stable (fuel : Nat) : ∀ fuel2 n, n ≤ fuel → n ≤ fuel2 →
    natToBEAux fuel n = natToBEAux fuel2 n := by
  induction fuel with
  | zero =>
    intro fuel2 n h1 _
    interval_cases n
    cases fuel2 <;> simp [natToBEAux]
  | succ f ih =>
    intro fuel2 n h1 h2
    by_cases h0 : n = 0
    · subst h0
      cases fuel2 <;> simp [natToBEAux]
    · obtain ⟨g, rfl⟩ : ∃ g, fuel2 = g + 1 := by
        cases fuel2 with
        | zero => omega
        | succ g => exact ⟨g, rfl⟩
      rw [natToBEAux, natToBEAux, if_neg h0, if_neg h0]
      have hlt : n / 256 < n := Nat.div_lt_self (Nat.pos_of_ne_zero h0) (by norm_num)
      rw [ih g (n / 256) (by omega) (by omega)]

/-- The defining recurrence of `natToBE`. -/
theorem natToBE_eq (n : Nat) :
    natToBE n = if n = 0 then [] else natToBE (n / 256) ++ [n % 256] := by
  by_cases h0 : n = 0
  · subst h0
    simp [natToBE, natToBEAux]
  · rw [if_neg h0, natToBE, natToBE]
    obtain ⟨m, rfl⟩ : ∃ m, n = m + 1 := by
      cases n with
      | zero => omega
      | succ m => exact ⟨m, rfl⟩
    rw [natToBEAux, if_neg h0]
    have hlt : (m + 1) / 256 < m + 1 :=
      Nat.div_lt_self (Nat.pos_of_ne_zero h0) (by norm_num)
    rw [natToBEAux_stable m ((m + 1) / 256) ((m + 1) / 256) (by omega) le_rfl]

/-- Big-endian value of a byte string. -/
def beToNat (bs : Bytes) : Nat :=
  bs.foldl (fun a b => 256 * a + b) 0

/-- RLP length header: one byte for payloads up to 55 bytes, otherwise a
length-of-length byte followed by the big-endian length. -/
def lenHeader (base n : Nat) : Bytes :=
  if n ≤ 55 then [base + n]
  else (base + 55 + (natToBE n).length) :: natToBE n

/-- RLP encoding of a byte string. -/
def encodeBytes (bs : Bytes) : Bytes :=
  if bs.length = 1 ∧ bs.headD 0 < 128 then bs
  else lenHeader 128 bs.length ++ bs

/-- RLP items: byte strings and (nested) lists. -/
inductive RLPItem where
  | bytes (bs : Bytes)
  | list (items : List RLPItem)

mutual

/-- RLP encoding of an item. -/
def encodeItem : RLPItem → Bytes
  | .bytes bs => encodeBytes bs
  | .list items =>
      lenHeader 192 (encodeItems items).length ++ encodeItems items

/-- Concatenated RLP encodings of a sequence of items. -/
def encodeItems : List RLPItem → Bytes
  | [] => []
  | it :: rest => encodeItem it ++ encodeItems rest

end

mutual

/-- Fuelled RLP decoder for a single item; returns the item and the remaining
input. -/
def decodeItem : Nat → Bytes → Option (RLPItem × Bytes)
  | 0, _ => none
  | _ + 1, [] => none
  | fuel + 1, b0 :: tail =>
    if b0 < 128 then some (.bytes [b0], tail)
    else if b0 < 184 then
      let n := b0 - 128
      if n ≤ tail.length then some (.bytes (tail.take n), tail.drop n) else none
    else if b0 < 192 then
      let ll := b0 - 183
      if ll ≤ tail.length then
        let n := beToNat (tail.take ll)
        let rest := tail.drop ll
        if n ≤ rest.length then some (.bytes (rest.take n), rest.drop n)
        else none
      else none
    else if b0 < 248 then
      let n := b0 - 192
      if n ≤ tail.length then
        match decodeItems fuel (tail.take n) with
        | some its => some (.list its, tail.drop n)
        | none => none
      else none
    else
      let ll := b0 - 247
      if ll ≤ tail.length then
        let n := beToNat (tail.take ll)
        let rest := tail.drop ll
        if n ≤ rest.length then
          match decodeItems fuel (rest.take n) with
          | some its => some (.list its, rest.drop n)
          | none => none
        else none
      else none

/-- Fuelled decoder for a sequence of items filling the whole input. -/
def decodeItems : Nat → Bytes → Option (List RLPItem)
  | _, [] => some []
  | 0, _ :: _ => none
  | fuel + 1, b :: bs =>
    match decodeItem fuel (b :: bs) with
    | some (it, rest) =>
      match decodeItems fuel rest with
      | some its => some (it :: its)
      | none => none
    | none => none

end

mutual

/-- Fuel needed by `decodeItem` on the encoding of an item. -/
def rsize : RLPItem → Nat
  | .bytes _ => 1
  | .list items => rsizeL items + 1

/-- Fuel needed by `decodeItems` on the encoding of an item sequence. -/
def rsizeL : List RLPItem → Nat
  | [] => 0
  | it :: rest => max (rsize it) (rsizeL rest) + 1

end

mutual

/-- Well-formedness for the round-trip: every payload fits the 8-byte length
cap of RLP long headers (always true for real transactions). -/
def itemOk : RLPItem → Bool
  | .bytes bs => decide (bs.length < 2 ^ 64)
  | .list items =>
      decide ((encodeItems items).length < 2 ^ 64) && itemsOk items

/-- `itemOk` for every item of a sequence. -/
def itemsOk : List RLPItem → Bool
  | [] => true
  | it :: rest => itemOk it && itemsOk rest

end

theorem beToNat_append_singleton (bs : Bytes) (c : Nat) :
    beToNat (bs ++ [c]) = 256 * beToNat bs + c := by
  simp [beToNat, List.foldl_append]

theorem beToNat_natToBE (n : Nat) : beToNat (natToBE n) = n := by
  induction n using Nat.strong_induction_on with
  | _ n ih =>
    rw [natToBE_eq]
    by_cases h : n = 0
    · simp [h, beToNat]
    · rw [if_neg h, beToNat_append_singleton,
        ih (n / 256) (Nat.div_lt_self (Nat.pos_of_ne_zero h) (by norm_num))]
      omega

theorem natToBE_ne_nil (n : Nat) (h : n ≠ 0) : natToBE n ≠ [] := by
  rw [natToBE_eq, if_neg h]
  simp

theorem natToBE_length_le (n k : Nat) (h : n < 256 ^ k) :
    (natToBE n).length ≤ k := by
  induction k generalizing n with
  | zero =>
    interval_cases n
    simp [natToBE, natToBEAux]
  | succ k ih =>
    rw [natToBE_eq]
    by_cases h0 : n = 0
    · simp [h0, natToBE, natToBEAux]
    · rw [if_neg h0]
      have hdiv : n / 256 < 256 ^ k := by
        rw [Nat.div_lt_iff_lt_mul (by norm_num)]
        calc n < 256 ^ (k + 1) := h
        _ = 256 ^ k * 256 := by ring
      simpa using Nat.succ_le_succ (ih (n / 256) hdiv)

theorem encodeBytes_ne_nil (bs : Bytes) : encodeBytes bs ≠ [] := by
  rw [encodeBytes]
  split
  · rename_i h
    intro hnil
    rw [hnil] at h
    simp at h
  · rw [lenHeader]
    split <;> simp

theorem encodeItem_ne_nil (it : RLPItem) : encodeItem it ≠ [] := by
  cases it with
  | bytes bs => exact encodeBytes_ne_nil bs
  | list items =>
    rw [encodeItem, lenHeader]
    split <;> simp

theorem rsize_pos (it : RLPItem) : 1 ≤ rsize it := by
  cases it <;> simp [rsize]

/-- Decoding a byte-string body prefixed by its RLP length header succeeds and
consumes exactly header and body. -/
theorem decodeItem_bytes_header (f : Nat) (bs rest : Bytes)
    (hlen : bs.length < 2 ^ 64) :
    decodeItem (f + 1) (lenHeader 128 bs.length ++ bs ++ rest) =
      some (.bytes bs, rest) := by
  rw [lenHeader]
  by_cases h55 : bs.length ≤ 55
  · rw [if_pos h55]
    have hne : ¬(128 + bs.length < 128) := by omega
    have hlt : 128 + bs.length < 184 := by omega
    simp only [List.cons_append, List.nil_append, List.append_assoc, decodeItem,
      if_neg hne, if_pos hlt]
    have hn : 128 + bs.length - 128 = bs.length := by omega
    rw [hn]
    have htl : bs.length ≤ (bs ++ rest).length := by simp
    rw [if_pos htl, List.take_left, List.drop_left]
  · rw [if_neg h55]
    have hbs0 : bs.length ≠ 0 := by omega
    have hll1 : 1 ≤ (natToBE bs.length).length := by
      have := natToBE_ne_nil bs.length hbs0
      cases hbe : natToBE bs.length with
      | nil => exact absurd hbe this
      | cons a l => simp
    have hll8 : (natToBE bs.length).length ≤ 8 :=
      natToBE_length_le bs.length 8 (by norm_num at hlen ⊢; omega)
    have hne : ¬(183 + (natToBE bs.length).length < 128) := by omega
    have hne2 : ¬(183 + (natToBE bs.length).length < 184) := by omega
    have hlt : 183 + (natToBE bs.length).length < 192 := by omega
    simp only [List.cons_append, List.nil_append, List.append_assoc, decodeItem,
      if_neg hne, if_neg hne2, if_pos hlt]
    have hn : 183 + (natToBE bs.length).length - 183 =
        (natToBE bs.length).length := by omega
    rw [hn]
    have htl : (natToBE bs.length).length ≤
        (natToBE bs.length ++ (bs ++ rest)).length := by simp
    rw [if_pos htl, List.take_left, List.drop_left, beToNat_natToBE]
    have htl2 : bs.length ≤ (bs ++ rest).length := by simp
    rw [if_pos htl2, List.take_left, List.drop_left]

mutual

/-- Decoding inverts encoding for a single item, leaving the rest of the
input untouched. -/
theorem decodeItem_encodeItem (it : RLPItem) (rest : Bytes) (fuel : Nat)
    (hf : rsize it ≤ fuel) (hok : itemOk it = true) :
    decodeItem fuel (encodeItem it ++ rest) = some (it, rest) := by
  obtain ⟨f, rfl⟩ : ∃ f, fuel = f + 1 := by
    cases fuel with
    | zero => exact absurd hf (by have := rsize_pos it; omega)
    | succ f => exact ⟨f, rfl⟩
  cases it with
  | bytes bs =>
    rw [encodeItem, encodeBytes]
    by_cases h1 : bs.length = 1 ∧ bs.headD 0 < 128
    · rw [if_pos h1]
      obtain ⟨b, rfl⟩ : ∃ b, bs = [b] := by
        cases bs with
        | nil => simp at h1
        | cons a l =>
          cases l with
          | nil => exact ⟨a, rfl⟩
          | cons c m => simp at h1
      have hb : b < 128 := by simpa using h1.2
      simp only [List.cons_append, List.nil_append, decodeItem, if_pos hb]
    · rw [if_neg h1]
      exact decodeItem_bytes_header f bs rest (by simpa [itemOk] using hok)
  | list items =>
    rw [encodeItem, lenHeader]
    have hok2 : (encodeItems items).length < 2 ^ 64 ∧ itemsOk items = true := by
      simpa [itemOk] using hok
    have hrec : decodeItems f (encodeItems items) = some items :=
      decodeItems_encodeItems items f (by
        have : rsize (.list items) = rsizeL items + 1 := by rw [rsize]
        omega) hok2.2
    by_cases h55 : (encodeItems items).length ≤ 55
    · rw [if_pos h55]
      have hne : ¬(192 + (encodeItems items).length < 128) := by omega
      have hne2 : ¬(192 + (encodeItems items).length < 184) := by omega
      have hne3 : ¬(192 + (encodeItems items).length < 192) := by omega
      have hlt : 192 + (encodeItems items).length < 248 := by omega
      simp only [List.cons_append, List.nil_append, List.append_assoc, decodeItem,
        if_neg hne, if_neg hne2, if_neg hne3, if_pos hlt]
      have hn : 192 + (encodeItems items).length - 192 =
          (encodeItems items).length := by omega
      rw [hn]
      have htl : (encodeItems items).length ≤
          (encodeItems items ++ rest).length := by simp
      rw [if_pos htl, List.take_left, List.drop_left, hrec]
    · rw [if_neg h55]
      have hp0 : (encodeItems items).length ≠ 0 := by omega
      have hll1 : 1 ≤ (natToBE (encodeItems items).length).length := by
        have := natToBE_ne_nil (encodeItems items).length hp0
        cases hbe : natToBE (encodeItems items).length with
        | nil => exact absurd hbe this
        | cons a l => simp
      have hll8 : (natToBE (encodeItems items).length).length ≤ 8 :=
        natToBE_length_le (encodeItems items).length 8
          (by have := hok2.1; norm_num at this ⊢; omega)
      have hne : ¬(247 + (natToBE (encodeItems items).length).length < 128) := by
        omega
      have hne2 : ¬(247 + (natToBE (encodeItems items).length).length < 184) := by
        omega
      have hne3 : ¬(247 + (natToBE (encodeItems items).length).length < 192) := by
        omega
      have hne4 : ¬(247 + (natToBE (encodeItems items).length).length < 248) := by
        omega
      simp only [List.cons_append, List.nil_append, List.append_assoc, decodeItem,
        if_neg hne, if_neg hne2, if_neg hne3, if_neg hne4]
      have hn : 247 + (natToBE (encodeItems items).length).length - 247 =
          (natToBE (encodeItems items).length).length := by omega
      rw [hn]
      have htl : (natToBE (encodeItems items).length).length ≤
          (natToBE (encodeItems items).length ++
            (encodeItems items ++ rest)).length := by simp
      rw [if_pos htl, List.take_left, List.drop_left, beToNat_natToBE]
      have htl2 : (encodeItems items).length ≤
          (encodeItems items ++ rest).length := by simp
      rw [if_pos htl2, List.take_left, List.drop_left, hrec]

/-- Decoding inverts encoding for an item sequence filling the whole input. -/
theorem decodeItems_encodeItems (its : List RLPItem) (fuel : Nat)
    (hf : rsizeL its ≤ fuel) (hok : itemsOk its = true) :
    decodeItems fuel (encodeItems its) = some its := by
  cases its with
  | nil => rw [encodeItems]; rw [decodeItems]
  | cons it rest =>
    obtain ⟨f, rfl⟩ : ∃ f, fuel = f + 1 := by
      cases fuel with
      | zero =>
        exact absurd hf (by rw [rsizeL]; omega)
      | succ f => exact ⟨f, rfl⟩
    have hsz : rsize it ≤ f ∧ rsizeL rest ≤ f := by
      rw [rsizeL] at hf
      constructor <;> omega
    have hokc : itemOk it = true ∧ itemsOk rest = true := by
      simpa [itemsOk] using hok
    have henc : encodeItems (it :: rest) = encodeItem it ++ encodeItems rest := by
      rw [encodeItems]
    obtain ⟨b, bs, hb⟩ : ∃ b bs, encodeItem it = b :: bs := by
      cases h : encodeItem it with
      | nil => exact absurd h (encodeItem_ne_nil it)
      | cons b bs => exact ⟨b, bs, rfl⟩
    rw [henc, hb, List.cons_append, decodeItems]
    have hdi : decodeItem f (b :: (bs ++ encodeItems rest)) =
        some (it, encodeItems rest) := by
      have := decodeItem_encodeItem it (encodeItems rest) f hsz.1 hokc.1
      rw [hb] at this
      simpa using this
    rw [hdi]
    simp [decodeItems_encodeItems rest f hsz.2 hokc.2]

end

mutual

/-- The decoding fuel needed for an item is at most twice its encoded length. -/
theorem rsize_le_encLen (it : RLPItem) : rsize it ≤ 2 * (encodeItem it).length := by
  cases it with
  | bytes bs =>
    have h1 : 1 ≤ (encodeItem (.bytes bs)).length :=
      List.length_pos.mpr (encodeItem_ne_nil (.bytes bs))
    rw [rsize]
    omega
  | list items =>
    have h2 := rsizeL_le_encLenL items
    have h1 : 1 ≤ (lenHeader 192 (encodeItems items).length).length := by
      rw [lenHeader]; split <;> simp
    rw [rsize, encodeItem, List.length_append]
    omega

/-- The decoding fuel needed for a sequence is bounded by its encoded length. -/
theorem rsizeL_le_encLenL (its : List RLPItem) :
    rsizeL its ≤ 2 * (encodeItems its).length + 1 := by
  cases its with
  | nil => rw [rsizeL]; omega
  | cons it rest =>
    have h1 := rsize_le_encLen it
    have h2 := rsizeL_le_encLenL rest
    have h3 : 1 ≤ (encodeItem it).length :=
      List.length_pos.mpr (encodeItem_ne_nil it)
    rw [rsizeL, encodeItems, List.length_append]
    omega

end

/-! ### The EIP-1559 transaction envelope built by `sign_transaction`

`sign_transaction` builds
`unsigned_payload = [chainId, nonce, maxPriorityFeePerGas, maxFeePerGas, gas,
to_bytes, value, data_bytes, accessList]`, signs
`keccak(b'\x02' + rlp.encode(unsigned_payload))`, and returns
`b'\x02' + rlp.encode(unsigned_payload + [v, r, s])`. -/

/-- The fields of the `tx` dict assembled at the top of `sign_transaction`.
`to` is the hex-decoded recipient (`None ↦ b''` when encoding) and `data` the
hex-decoded payload (`'0x' ↦ b''`). -/
structure TxDict where
  type : Nat
  chainId : Nat
  nonce : Nat
  maxFeePerGas : Nat
  maxPriorityFeePerGas : Nat
  gas : Nat
  toAddr : Option Addr
  value : Nat
  data : Bytes
  accessList : List RLPItem

/-- `rlp` serializes a Python int as its minimal big-endian byte string. -/
def natItem (n : Nat) : RLPItem := .bytes (natToBE n)

/-- `to_bytes = b'' if tx['to'] is None else bytes.fromhex(tx['to'][2:])`. -/
def toFieldBytes : Option Addr → Bytes
  | none => []
  | some a => a

/-- The `unsigned_payload` list of `sign_transaction`. -/
def unsignedItems (tx : TxDict) : List RLPItem :=
  [natItem tx.chainId, natItem tx.nonce, natItem tx.maxPriorityFeePerGas,
   natItem tx.maxFeePerGas, natItem tx.gas, .bytes (toFieldBytes tx.toAddr),
   natItem tx.value, .bytes tx.data, .list tx.accessList]

/-- `b'\x02' + rlp.encode(unsigned_payload)`: the bytes hashed for signing. -/
def encodeUnsigned (tx : TxDict) : Bytes :=
  2 :: encodeItem (.list (unsignedItems tx))

/-- The `signed_payload` list: `unsigned_payload + [v_final, r, s]`. -/
def signedItems (tx : TxDict) (v r s : Nat) : List RLPItem :=
  unsignedItems tx ++ [natItem v, natItem r, natItem s]

/-- `raw_tx = b'\x02' + rlp.encode(signed_payload)`. -/
def encodeSigned (tx : TxDict) (v r s : Nat) : Bytes :=
  2 :: encodeItem (.list (signedItems tx v r s))

/-- Inverse of `encodeSigned`: strip the 0x02 type byte, RLP-decode, and read
the twelve fields back. -/
def decodeSigned (raw : Bytes) : Option (TxDict × Nat × Nat × Nat) :=
  match raw with
  | b :: rest =>
    if b = 2 then
      match decodeItem (2 * rest.length) rest with
      | some (.list [.bytes cid, .bytes non, .bytes mp, .bytes mf, .bytes g,
          .bytes tob, .bytes val, .bytes dat, .list al, .bytes sv, .bytes sr,
          .bytes ss], []) =>
        some ({ type := 2, chainId := beToNat cid, nonce := beToNat non,
                maxPriorityFeePerGas := beToNat mp, maxFeePerGas := beToNat mf,
                gas := beToNat g,
                toAddr := if tob = [] then none else some tob,
                value := beToNat val, data := dat, accessList := al },
              beToNat sv, beToNat sr, beToNat ss)
      | _ => none
    else none
  | [] => none

/-- Validity of a transaction/signature pair for the round-trip: EIP-1559 type
byte, a recipient that is absent or a 20-byte address, and RLP payload sizes
below the 8-byte length cap. -/
def txSigOk (tx : TxDict) (v r s : Nat) : Bool :=
  (tx.type == 2) &&
  (match tx.toAddr with
   | none => true
   | some a => a.length == 20) &&
  itemOk (.list (signedItems tx v r s))

theorem decodeItem_encodeItem_exact (it : RLPItem) (hok : itemOk it = true) :
    decodeItem (2 * (encodeItem it).length) (encodeItem it) =
      some (it, []) := by
  have h := decodeItem_encodeItem it [] (2 * (encodeItem it).length)
    (rsize_le_encLen it) hok
  simpa using h

/-- C9 core: the signed envelope decodes back to exactly the original fields
and signature components. -/
theorem decodeSigned_encodeSigned (tx : TxDict) (v r s : Nat)
    (h : txSigOk tx v r s = true) :
    decodeSigned (encodeSigned tx v r s) = some (tx, v, r, s) := by
  have ht : tx.type = 2 := by
    have := (Bool.and_elim_left (Bool.and_elim_left h))
    simpa using this
  have hok : itemOk (.list (signedItems tx v r s)) = true :=
    Bool.and_elim_right h
  have hdec := decodeItem_encodeItem_exact (.list (signedItems tx v r s)) hok
  rw [encodeSigned, decodeSigned]
  rw [if_pos rfl, hdec]
  rw [signedItems, unsignedItems] at hdec ⊢
  simp only [natItem, List.cons_append, List.nil_append] at hdec ⊢
  simp only [beToNat_natToBE]
  obtain ⟨t, cid, non, mf, mp, g, toA, val, dat, al⟩ := tx
  simp only at ht
  subst ht
  cases toA with
  | none => simp [toFieldBytes]
  | some a =>
    have ha : a.length = 20 := by
      have := Bool.and_elim_right (Bool.and_elim_left h)
      simpa using this
    have hne : a ≠ [] := by
      intro hnil
      rw [hnil] at ha
      simp at ha
    simp [toFieldBytes, hne]

/-! ### `KMSWeb3Signer`: recovery resolution and signing

The curve operations (`keccak`, `keys.Signature(...).recover_public_key_from_msg_hash`
followed by address derivation) and the KMS service are external to the
Python module; they are supplied as oracles.  `recoverAddress h r s v = none`
models an exception raised inside the `try` of `recover_v`;
`kmsSign digest = none` models a failing `kms_client.sign` call. -/

structure SignerEnv where
  keccak : Bytes → Bytes
  recoverAddress : Bytes → Nat → Nat → Nat → Option Addr
  senderAddress : Addr
  kmsSign : Bytes → Option (Nat × Nat)

/-- One iteration of the loop body of `recover_v`: recover the public key for
candidate `v`, derive its address, compare with `self.sender_address`; a raised
exception is caught and counts as no match. -/
def tryRecover (env : SignerEnv) (txHash : Bytes) (r s v : Nat) : Bool :=
  match env.recoverAddress txHash r s v with
  | some addr => decide (addr = env.senderAddress)
  | none => false

/-- `KMSWeb3Signer.recover_v`: try candidates 0 and 1 in order, return the
first whose recovered address equals the signer address, otherwise raise. -/
def recover_v (env : SignerEnv) (txHash : Bytes) (r s : Nat) :
    Except String Nat :=
  if tryRecover env txHash r s 0 then .ok 0
  else if tryRecover env txHash r s 1 then .ok 1
  else .error "Signature recovery failed—check KMS key, chain_id, or tx hash integrity"

/-- Low-s normalization in `sign_transaction`:
`if s > SECP256K1_N // 2: s = SECP256K1_N - s`.  (For the mathematically
valid range `s ≤ SECP256K1_N` the ℕ subtraction agrees with Python's.) -/
def normalize_s (s : Nat) : Nat :=
  if s > SECP256K1_N / 2 then SECP256K1_N - s else s

/-- `KMSWeb3Signer.sign_transaction`: reject non-EIP-1559 dicts, hash the
0x02-prefixed RLP of the unsigned payload, sign via KMS, normalize `s`,
resolve `v` by recovery, and return the signed envelope. -/
def sign_transaction (env : SignerEnv) (tx : TxDict) : Except String Bytes :=
  if tx.type ≠ 2 then .error "Only EIP-1559 supported"
  else
    let txHash := env.keccak (encodeUnsigned tx)
    match env.kmsSign txHash with
    | none => .error "KMS sign failed"
    | some (r, s0) =>
      let s := normalize_s s0
      match recover_v env txHash r s with
      | .error e => .error e
      | .ok v => .ok (encodeSigned tx v r s)

theorem tryRecover_eq_true (env : SignerEnv) (txHash : Bytes) (r s v : Nat) :
    tryRecover env txHash r s v = true ↔
      env.recoverAddress txHash r s v = some env.senderAddress := by
  rw [tryRecover]
  cases h : env.recoverAddress txHash r s v with
  | none => simp
  | some addr => simp

/-- C1: `recover_v` returns only a candidate in {0, 1} whose recovered address
equals the signer address, and raises exactly when neither candidate matches. -/
theorem recover_v_correct (env : SignerEnv) (txHash : Bytes) (r s : Nat) :
    (∀ v, recover_v env txHash r s = .ok v →
      (v = 0 ∨ v = 1) ∧
        env.recoverAddress txHash r s v = some env.senderAddress) ∧
    ((∀ v, v = 0 ∨ v = 1 →
        env.recoverAddress txHash r s v ≠ some env.senderAddress) ↔
      recover_v env txHash r s =
        .error "Signature recovery failed—check KMS key, chain_id, or tx hash integrity") := by
  constructor
  · intro v hv
    rw [recover_v] at hv
    by_cases h0 : tryRecover env txHash r s 0 = true
    · rw [if_pos h0] at hv
      cases hv
      exact ⟨Or.inl rfl, (tryRecover_eq_true env txHash r s 0).mp h0⟩
    · rw [if_neg h0] at hv
      by_cases h1 : tryRecover env txHash r s 1 = true
      · rw [if_pos h1] at hv
        cases hv
        exact ⟨Or.inr rfl, (tryRecover_eq_true env txHash r s 1).mp h1⟩
      · rw [if_neg h1] at hv
        exact absurd hv (by simp)
  · constructor
    · intro hall
      have h0 : tryRecover env txHash r s 0 = false := by
        rw [← Bool.not_eq_true, tryRecover_eq_true]
        exact hall 0 (Or.inl rfl)
      have h1 : tryRecover env txHash r s 1 = false := by
        rw [← Bool.not_eq_true, tryRecover_eq_true]
        exact hall 1 (Or.inr rfl)
      rw [recover_v, h0, h1]
      simp
    · intro herr v hv hmatch
      rw [recover_v] at herr
      have htv : tryRecover env txHash r s v = true :=
        (tryRecover_eq_true env txHash r s v).mpr hmatch
      rcases hv with rfl | rfl
      · rw [htv] at herr
        simp at herr
      · rw [htv] at herr
        by_cases h0 : tryRecover env txHash r s 0 = true
        · rw [if_pos h0] at herr
          simp at herr
        · rw [if_neg h0] at herr
          simp at herr

/-- C4 arithmetic core: normalization lands in the canonical low-s half. -/
theorem normalize_s_le_half (s : Nat) (h1 : 1 ≤ s) (h2 : s ≤ SECP256K1_N - 1) :
    1 ≤ normalize_s s ∧ normalize_s s ≤ SECP256K1_N / 2 := by
  rw [normalize_s]
  by_cases hs : s > SECP256K1_N / 2
  · rw [if_pos hs]
    rw [SECP256K1_N] at hs h2 ⊢
    omega
  · rw [if_neg hs]
    rw [SECP256K1_N] at hs h2 ⊢
    omega

/-- C4: for any oracle signature with `s` in the valid range, the `s` used both
for recovery resolution and in the signed envelope is the normalized one, and
it is at most half the curve order. -/
theorem sign_transaction_low_s (env : SignerEnv) (tx : TxDict) (r s0 : Nat)
    (hk : env.kmsSign (env.keccak (encodeUnsigned tx)) = some (r, s0))
    (h1 : 1 ≤ s0) (h2 : s0 ≤ SECP256K1_N - 1) (raw : Bytes)
    (hok : sign_transaction env tx = .ok raw) :
    ∃ v, recover_v env (env.keccak (encodeUnsigned tx)) r (normalize_s s0) = .ok v ∧
      raw = encodeSigned tx v r (normalize_s s0) ∧
      normalize_s s0 ≤ SECP256K1_N / 2 := by
  rw [sign_transaction] at hok
  by_cases htype : tx.type ≠ 2
  · rw [if_pos htype] at hok
    exact absurd hok (by simp)
  · rw [if_neg htype] at hok
    simp only [hk] at hok
    cases hrec : recover_v env (env.keccak (encodeUnsigned tx)) r (normalize_s s0) with
    | error e => rw [hrec] at hok; exact absurd hok (by simp)
    | ok v =>
      rw [hrec] at hok
      refine ⟨v, rfl, ?_, (normalize_s_le_half s0 h1 h2).2⟩
      cases hok
      rfl

/-! ### `RewardDistributorService`: node interaction model

The JSON-RPC node is modelled by response streams plus a small world state:
`sent` is the sequence of raw transactions handed to
`w3.eth.send_raw_transaction` (the broadcast call), `queries` counts
`get_transaction_count` calls (indexing the response streams), and `mined` is
the account's on-chain transaction count — the nonce counter — which grows
exactly when a broadcast transaction is reported included by a status-1
receipt. -/

structure World where
  queries : Nat
  sent : List Bytes
  mined : Nat

structure NodeEnv where
  latestCount : Nat → Nat
  pendingCount : Nat → Nat
  maxPriorityFeeOk : Bool
  maxPriorityFee : Nat
  baseFee : Nat
  balance : Nat
  gasEstimate : Option Nat
  simulateOk : Bool
  sendAccept : Nat → Except String Unit
  receiptStatus : Nat → Nat

/-- `w3.eth.get_transaction_count(addr, "latest")`. -/
def getTxCountLatest (node : NodeEnv) (w : World) : Nat × World :=
  (node.latestCount w.queries, { w with queries := w.queries + 1 })

/-- `w3.eth.get_transaction_count(addr, "pending")`. -/
def getTxCountPending (node : NodeEnv) (w : World) : Nat × World :=
  (node.pendingCount w.queries, { w with queries := w.queries + 1 })

/-- `w3.eth.send_raw_transaction(raw)`: the raw bytes are handed to the node;
the node accepts (returning a hash, modelled by the send index) or raises. -/
def sendRawTransaction (node : NodeEnv) (w : World) (raw : Bytes) :
    Except String Nat × World :=
  let idx := w.sent.length
  let w2 := { w with sent := w.sent ++ [raw] }
  match node.sendAccept idx with
  | .ok _ => (.ok idx, w2)
  | .error e => (.error e, w2)

/-- `w3.eth.wait_for_transaction_receipt`: a status-1 receipt marks the
transaction included, advancing the account nonce. -/
def waitReceipt (node : NodeEnv) (w : World) (txIdx : Nat) : Nat × World :=
  let st := node.receiptStatus txIdx
  (st, if st = 1 then { w with mined := w.mined + 1 } else w)

def gwei (n : Nat) : Nat := n * 10 ^ 9

structure RewardEnv where
  node : NodeEnv
  signer : SignerEnv
  chainId : Nat
  distributorAddress : Addr
  distributeCalldata : Addr → Int → Bytes

/-- `RewardDistributorService._replace_nonce_zero`: sign and broadcast a
high-fee zero-value self-transfer at nonce 0 and wait for its receipt;
raise unless the receipt has status 1. -/
def cancelPriorityFee (env : RewardEnv) : Nat :=
  if env.node.maxPriorityFeeOk then max env.node.maxPriorityFee (gwei 80)
  else gwei 80

/-- The `cancel_tx` dict of `_replace_nonce_zero`: a zero-value self-transfer
at nonce 0 with aggressive fees (the unused `from` key is omitted;
`sign_transaction` never reads it). -/
def cancelTxOf (env : RewardEnv) : TxDict :=
  { type := 2, chainId := env.chainId, nonce := 0,
    maxFeePerGas := max (env.node.baseFee * 2 + cancelPriorityFee env) (gwei 120),
    maxPriorityFeePerGas := cancelPriorityFee env, gas := 25000,
    toAddr := some env.signer.senderAddress, value := 0, data := [],
    accessList := [] }

def replace_nonce_zero (env : RewardEnv) (w : World) :
    Except String Unit × World :=
  match sign_transaction env.signer (cancelTxOf env) with
  | .error e => (.error e, w)
  | .ok raw =>
    match sendRawTransaction env.node w raw with
    | (.error e, w2) => (.error e, w2)
    | (.ok txIdx, w2) =>
      let rec2 := waitReceipt env.node w2 txIdx
      ((if rec2.1 ≠ 1 then
          .error "Nonce-0 replacement failed; cannot proceed with reward tx"
        else .ok ()), rec2.2)

/-- Whether the first character sequence starts the second. -/
def seqStarts : List Char → List Char → Bool
  | [], _ => true
  | _ :: _, [] => false
  | a :: as, b :: bs => a == b && seqStarts as bs

/-- Whether the first character sequence occurs inside the second. -/
def seqContains (needle : List Char) : List Char → Bool
  | [] => seqStarts needle []
  | b :: bs => seqStarts needle (b :: bs) || seqContains needle bs

/-- `'nonce too low' in msg.lower()`. -/
def nonceTooLowIn (msg : String) : Bool :=
  seqContains "nonce too low".toList (msg.toList.map Char.toLower)

/-- The local `_send_once` closure: sign, then broadcast. -/
def sendOnce (env : RewardEnv) (tx : TxDict) (w : World) :
    Except String Nat × World :=
  match sign_transaction env.signer tx with
  | .error e => (.error e, w)
  | .ok raw => sendRawTransaction env.node w raw

/-- The tail of `distribute_reward` after a send succeeded: wait for the
receipt and return its status (the receipt is returned regardless of status). -/
def afterSend (env : RewardEnv) (txIdx : Nat) (w : World) :
    Except String Nat × World :=
  let rec2 := waitReceipt env.node w txIdx
  (.ok rec2.1, rec2.2)

/-- The `try/except` around the first `_send_once`: on an error containing
`nonce too low`, re-query the pending count and retry exactly once with
`max(tx['nonce'] + 1, fresh_pending)`; any other error, and any error of the
retry, propagates. -/
def sendWithRetry (env : RewardEnv) (tx : TxDict) (w : World) :
    Except String Nat × World :=
  match sendOnce env tx w with
  | (.ok txIdx, w1) => afterSend env txIdx w1
  | (.error msg, w1) =>
    if nonceTooLowIn msg then
      let fresh := getTxCountPending env.node w1
      let bumped := { tx with nonce := max (tx.nonce + 1) fresh.1 }
      match sendOnce env bumped fresh.2 with
      | (.ok txIdx, w3) => afterSend env txIdx w3
      | (.error e, w3) => (.error e, w3)
    else (.error msg, w1)

/-- `to_wei(0.01, 'ether')`. -/
def minGasBalance : Nat := 10 ^ 16

/-- The gas limit: `int(gas_est * 1.3)` on success, fallback 200000 when
`estimate_gas` raises. -/
def gasLimitOf (env : RewardEnv) : Nat :=
  match env.node.gasEstimate with
  | some g => 13 * g / 10
  | none => 200000

/-- The final reward transaction of `distribute_reward`:
`{**tx_for_est, 'gas': gas_limit}` (the unused `from` key is omitted);
`max_fee = int((base_fee + priority_fee) * 1.5)`, modelled exactly. -/
def rewardTxOf (env : RewardEnv) (recipient : Addr) (amountWei : Int)
    (nonce : Nat) : TxDict :=
  { type := 2, chainId := env.chainId, nonce := nonce,
    maxFeePerGas := 3 * (env.node.baseFee + env.node.maxPriorityFee) / 2,
    maxPriorityFeePerGas := env.node.maxPriorityFee, gas := gasLimitOf env,
    toAddr := some env.distributorAddress, value := 0,
    data := env.distributeCalldata recipient amountWei, accessList := [] }

/-- `distribute_reward` from the simulation check onwards: simulate the
contract call (raising on revert), check the gas balance, compute fees
(`int((base_fee + priority_fee) * 1.5)`, modelled exactly) and the gas limit
(`int(gas_est * 1.3)`, fallback 200000 when estimation raises), build the
transaction and send it with the single-retry policy. -/
def distributeAfterNonce (env : RewardEnv) (recipient : Addr)
    (amountWei : Int) (nonce : Nat) (w : World) : Except String Nat × World :=
  if !env.node.simulateOk then (.error "Contract simulation revert", w)
  else if env.node.balance < minGasBalance then
    (.error "Too little base sepolia for gas - send more testnet base sepolia", w)
  else
    sendWithRetry env (rewardTxOf env recipient amountWei nonce) w

/-- Python `int()` on a non-negative `Decimal`: truncation toward zero. -/
def ratTrunc (q : Rat) : Int :=
  if 0 ≤ q then Int.floor q else Int.ceil q

/-- `amount_wei = int(Decimal(amount_ether) * 10**18)`; `amountEther` is the
exact rational value of the Python float argument (`Decimal(float)` is exact). -/
def amount_to_wei (amountEther : Rat) : Int :=
  ratTrunc (amountEther * 10 ^ 18)

/-- `RewardDistributorService.distribute_reward`: query latest and pending
counts, take the maximum as nonce; when it is 0, run the nonce-0 eviction and
re-query the pending count; then simulate, build and send. -/
def distribute_reward (env : RewardEnv) (recipient : Addr)
    (amountEther : Rat) (w0 : World) : Except String Nat × World :=
  let amountWei := amount_to_wei amountEther
  let latest := getTxCountLatest env.node w0
  let pending := getTxCountPending env.node latest.2
  let nonce := max latest.1 pending.1
  if nonce = 0 then
    match replace_nonce_zero env pending.2 with
    | (.error e, w3) => (.error e, w3)
    | (.ok _, w3) =>
      let pending2 := getTxCountPending env.node w3
      distributeAfterNonce env recipient amountWei pending2.1 pending2.2
  else
    distributeAfterNonce env recipient amountWei nonce pending.2

/-! ### C2: every broadcast transaction passed the recovery-address check -/

/-- A raw transaction for which the recovery-address check succeeded during
signing: it is the signed envelope of some transaction whose digest, under the
signature components embedded in the envelope, recovers to the signer's
sender address. -/
def signedByVerified (env : SignerEnv) (raw : Bytes) : Prop :=
  ∃ tx v r s, raw = encodeSigned tx v r s ∧ (v = 0 ∨ v = 1) ∧
    env.recoverAddress (env.keccak (encodeUnsigned tx)) r s v =
      some env.senderAddress

theorem sign_transaction_verified (env : SignerEnv) (tx : TxDict) (raw : Bytes)
    (h : sign_transaction env tx = .ok raw) : signedByVerified env raw := by
  rw [sign_transaction] at h
  by_cases ht : tx.type ≠ 2
  · rw [if_pos ht] at h
    exact absurd h (by simp)
  · rw [if_neg ht] at h
    simp only at h
    cases hk : env.kmsSign (env.keccak (encodeUnsigned tx)) with
    | none => rw [hk] at h; exact absurd h (by simp)
    | some rs =>
      obtain ⟨r, s0⟩ := rs
      rw [hk] at h
      simp only at h
      cases hrec : recover_v env (env.keccak (encodeUnsigned tx)) r
          (normalize_s s0) with
      | error e => rw [hrec] at h; exact absurd h (by simp)
      | ok v =>
        rw [hrec] at h
        cases h
        have hv := (recover_v_correct env (env.keccak (encodeUnsigned tx)) r
          (normalize_s s0)).1 v hrec
        exact ⟨tx, v, r, normalize_s s0, rfl, hv.1, hv.2⟩

/-- All raws added to the broadcast log between `w` and `w2` passed the
signing-time verification. -/
def sentOkFrom (env : SignerEnv) (w w2 : World) : Prop :=
  ∀ raw, raw ∈ w2.sent → raw ∈ w.sent ∨ signedByVerified env raw

theorem sentOkFrom_refl (env : SignerEnv) (w : World) : sentOkFrom env w w :=
  fun _ h => Or.inl h

theorem sentOkFrom_trans (env : SignerEnv) (w1 w2 w3 : World)
    (h12 : sentOkFrom env w1 w2) (h23 : sentOkFrom env w2 w3) :
    sentOkFrom env w1 w3 := by
  intro raw h3
  rcases h23 raw h3 with h2 | hv
  · exact h12 raw h2
  · exact Or.inr hv

theorem sentOkFrom_of_sent_eq (env : SignerEnv) (w w2 : World)
    (h : w2.sent = w.sent) : sentOkFrom env w w2 := by
  intro raw hr
  rw [h] at hr
  exact Or.inl hr

theorem sendRawTransaction_sent (node : NodeEnv) (w : World) (raw : Bytes) :
    ((sendRawTransaction node w raw).2).sent = w.sent ++ [raw] := by
  rw [sendRawTransaction]
  cases node.sendAccept w.sent.length <;> rfl

theorem sendRawTransaction_sentOk (env : SignerEnv) (node : NodeEnv)
    (w : World) (raw : Bytes) (hv : signedByVerified env raw) :
    sentOkFrom env w ((sendRawTransaction node w raw).2) := by
  intro r hr
  rw [sendRawTransaction_sent] at hr
  rcases List.mem_append.mp hr with h | h
  · exact Or.inl h
  · simp at h
    rw [h]
    exact Or.inr hv

theorem waitReceipt_sent (node : NodeEnv) (w : World) (i : Nat) :
    ((waitReceipt node w i).2).sent = w.sent := by
  rw [waitReceipt]
  split <;> rfl

theorem replace_nonce_zero_sentOk (env : RewardEnv) (w : World) :
    sentOkFrom env.signer w ((replace_nonce_zero env w).2) := by
  cases hs : sign_transaction env.signer (cancelTxOf env) with
  | error e =>
    simp only [replace_nonce_zero, hs]
    exact sentOkFrom_refl env.signer w
  | ok raw =>
    have hver := sign_transaction_verified env.signer (cancelTxOf env) raw hs
    rcases hres : sendRawTransaction env.node w raw with ⟨res, w2⟩
    have hsend : sentOkFrom env.signer w w2 := by
      have h1 := sendRawTransaction_sentOk env.signer env.node w raw hver
      rw [hres] at h1
      exact h1
    simp only [replace_nonce_zero, hs, hres]
    cases res with
    | error e => exact hsend
    | ok txIdx =>
      intro r hr
      have hr2 : r ∈ ((waitReceipt env.node w2 txIdx).2).sent := hr
      rw [waitReceipt_sent] at hr2
      exact hsend r hr2

theorem sendOnce_sentOk (env : RewardEnv) (tx : TxDict) (w : World) :
    sentOkFrom env.signer w ((sendOnce env tx w).2) := by
  rw [sendOnce]
  cases hs : sign_transaction env.signer tx with
  | error e => exact sentOkFrom_refl env.signer w
  | ok raw =>
    exact sendRawTransaction_sentOk env.signer env.node w raw
      (sign_transaction_verified env.signer tx raw hs)

theorem afterSend_sentOk (env : RewardEnv) (i : Nat) (w : World) :
    sentOkFrom env.signer w ((afterSend env i w).2) := by
  rw [afterSend]
  exact sentOkFrom_of_sent_eq env.signer w _ (waitReceipt_sent env.node w i)

/-- The bumped transaction of the single retry. -/
def bumpedTx (env : RewardEnv) (tx : TxDict) (w1 : World) : TxDict :=
  { tx with nonce := max (tx.nonce + 1) (getTxCountPending env.node w1).1 }

theorem sendWithRetry_sentOk (env : RewardEnv) (tx : TxDict) (w : World) :
    sentOkFrom env.signer w ((sendWithRetry env tx w).2) := by
  rcases h1 : sendOnce env tx w with ⟨res, w1⟩
  have hs1 : sentOkFrom env.signer w w1 := by
    have h := sendOnce_sentOk env tx w
    rw [h1] at h
    exact h
  cases res with
  | ok txIdx =>
    simp only [sendWithRetry, h1]
    exact sentOkFrom_trans env.signer w w1 _ hs1 (afterSend_sentOk env txIdx w1)
  | error msg =>
    simp only [sendWithRetry, h1]
    by_cases hlow : nonceTooLowIn msg = true
    · rw [if_pos hlow]
      rcases h2 : sendOnce env (bumpedTx env tx w1) (getTxCountPending env.node w1).2 with ⟨res2, w3⟩
      have hq : sentOkFrom env.signer w1 (getTxCountPending env.node w1).2 :=
        sentOkFrom_of_sent_eq env.signer w1 _ (by rw [getTxCountPending])
      have hs2 : sentOkFrom env.signer (getTxCountPending env.node w1).2 w3 := by
        have h := sendOnce_sentOk env (bumpedTx env tx w1)
          (getTxCountPending env.node w1).2
        rw [h2] at h
        exact h
      have hw3 : sentOkFrom env.signer w w3 :=
        sentOkFrom_trans env.signer w w1 w3 hs1
          (sentOkFrom_trans env.signer w1 _ w3 hq hs2)
      rw [show ({ tx with nonce := max (tx.nonce + 1) (getTxCountPending env.node w1).1 } : TxDict) = bumpedTx env tx w1 from rfl, h2]
      cases res2 with
      | ok txIdx =>
        exact sentOkFrom_trans env.signer w w3 _ hw3
          (afterSend_sentOk env txIdx w3)
      | error e => exact hw3
    · rw [if_neg (by simpa using hlow)]
      exact hs1

theorem distributeAfterNonce_sentOk (env : RewardEnv) (recipient : Addr)
    (amountWei : Int) (nonce : Nat) (w : World) :
    sentOkFrom env.signer w
      ((distributeAfterNonce env recipient amountWei nonce w).2) := by
  rw [distributeAfterNonce]
  split
  · exact sentOkFrom_refl env.signer w
  · split
    · exact sentOkFrom_refl env.signer w
    · exact sendWithRetry_sentOk env (rewardTxOf env recipient amountWei nonce) w

/-- C2: every raw transaction handed to the node's broadcast call during
`distribute_reward` (including the nonce-0 eviction path and the retry path)
is a signed envelope whose embedded signature components were verified, at
signing time, to recover the signer's sender address. -/
theorem distribute_reward_broadcast_verified (env : RewardEnv)
    (recipient : Addr) (amountEther : Rat) (w0 : World) (raw : Bytes)
    (hmem : raw ∈ ((distribute_reward env recipient amountEther w0).2).sent) :
    raw ∈ w0.sent ∨ signedByVerified env.signer raw := by
  revert hmem
  rw [distribute_reward]
  simp only
  have hq1 : ((getTxCountLatest env.node w0).2).sent = w0.sent := by
    rw [getTxCountLatest]
  have hq2 : ((getTxCountPending env.node
      (getTxCountLatest env.node w0).2).2).sent = w0.sent := by
    rw [getTxCountPending]
    exact hq1
  split
  · cases hrz : replace_nonce_zero env
        (getTxCountPending env.node (getTxCountLatest env.node w0).2).2 with
    | mk res w3 =>
      have hrzOk : sentOkFrom env.signer w0 w3 := by
        have h1 := replace_nonce_zero_sentOk env
          (getTxCountPending env.node (getTxCountLatest env.node w0).2).2
        rw [hrz] at h1
        exact sentOkFrom_trans env.signer w0 _ w3
          (sentOkFrom_of_sent_eq env.signer w0 _ hq2) h1
      cases res with
      | error e => exact fun hmem => hrzOk raw hmem
      | ok u =>
        simp only
        intro hmem
        have hq3 : sentOkFrom env.signer w3 (getTxCountPending env.node w3).2 :=
          sentOkFrom_of_sent_eq env.signer w3 _ (by rw [getTxCountPending])
        have hafter := distributeAfterNonce_sentOk env recipient
          (amount_to_wei amountEther) (getTxCountPending env.node w3).1
          (getTxCountPending env.node w3).2
        exact sentOkFrom_trans env.signer w0 w3 _ hrzOk
          (sentOkFrom_trans env.signer w3 _ _ hq3 hafter) raw hmem
  · intro hmem
    have hafter := distributeAfterNonce_sentOk env recipient
      (amount_to_wei amountEther)
      (max (getTxCountLatest env.node w0).1
        (getTxCountPending env.node (getTxCountLatest env.node w0).2).1)
      (getTxCountPending env.node (getTxCountLatest env.node w0).2).2
    exact sentOkFrom_trans env.signer w0 _ _
      (sentOkFrom_of_sent_eq env.signer w0 _ hq2) hafter raw hmem

/-! ### C3: the startup address checks of `KMSWeb3Signer.__init__` -/

/-- The 20 address bytes of the literal
`0xBfb33b5CC42C20De1dfc11CfdDa89C1CAd393e79` hard-coded in
`KMSWeb3Signer.__init__` (both the checksummed and the lowercased comparison
use this same address). -/
def EXPECTED_FUNDED_ADDRESS : Addr :=
  [0xbf, 0xb3, 0x3b, 0x5c, 0xc4, 0x2c, 0x20, 0xde, 0x1d, 0xfc,
   0x11, 0xcf, 0xdd, 0xa8, 0x9c, 0x1c, 0xad, 0x39, 0x3e, 0x79]

inductive InitOutcome where
  | fatal (msg : String)
  | ok (warned : Bool)
deriving DecidableEq

/-- The address checks of `KMSWeb3Signer.__init__` as a function of the
address derived from the KMS public key and the configured
`KYC_REWARD_SENDER_ADDRESS` setting: two fatal comparisons against the
hard-coded funded address (checksummed, then lowercased — same address
bytes), then a non-fatal comparison against the configured env sender that
only prints a warning and keeps the derived address. -/
def init_address_check (derived : Addr) (envSender : Option Addr) :
    InitOutcome :=
  if derived ≠ EXPECTED_FUNDED_ADDRESS then
    .fatal "Wrong KMS key! Expected funded address 0xBfb33b5..., got ..."
  else if derived ≠ EXPECTED_FUNDED_ADDRESS then
    .fatal "CRITICAL: Using wrong KMS key!"
  else
    match envSender with
    | some e => if e ≠ derived then .ok true else .ok false
    | none => .ok false

/-- A syntactically valid address different from the hard-coded one. -/
def OTHER_SENDER : Addr :=
  [0x11, 0x22, 0x33, 0x44, 0x55, 0x66, 0x77, 0x88, 0x99, 0xaa,
   0xbb, 0xcc, 0xdd, 0xee, 0xff, 0x01, 0x02, 0x03, 0x04, 0x05]

/-- C3 counterexample: with the configured expected sender set to an address
different from the derived one, construction does not fail — the mismatch is
reduced to a warning. -/
theorem init_mismatch_only_warns :
    OTHER_SENDER ≠ EXPECTED_FUNDED_ADDRESS ∧
      init_address_check EXPECTED_FUNDED_ADDRESS (some OTHER_SENDER) =
        .ok true := by
  constructor
  · decide
  · decide

/-- C3 amended: construction is fatal exactly when the derived address
differs from the hard-coded funded address; a mismatch between the derived
address and the configured env sender produces only a warning, and the
derived address is used. -/
theorem init_address_check_amended (derived e : Addr) :
    ((∃ m, init_address_check derived (some e) = .fatal m) ↔
      derived ≠ EXPECTED_FUNDED_ADDRESS) ∧
    (derived = EXPECTED_FUNDED_ADDRESS → e ≠ derived →
      init_address_check derived (some e) = .ok true) := by
  by_cases hd : derived = EXPECTED_FUNDED_ADDRESS
  · constructor
    · constructor
      · rintro ⟨m, hm⟩
        rw [init_address_check, if_neg (by simp [hd])] at hm
        rw [if_neg (by simp [hd])] at hm
        by_cases he : e ≠ derived
        · rw [if_pos he] at hm
          exact absurd hm (by simp)
        · rw [if_neg he] at hm
          exact absurd hm (by simp)
      · intro hne
        exact absurd hd hne
    · intro _ he
      rw [init_address_check, if_neg (by simp [hd]), if_neg (by simp [hd]),
        if_pos he]
  · constructor
    · constructor
      · intro _
        exact hd
      · intro _
        exact ⟨"Wrong KMS key! Expected funded address 0xBfb33b5..., got ...",
          by rw [init_address_check, if_pos hd]⟩
    · intro hdd
      exact absurd hdd hd

/-! ### C7: the single-retry policy on `nonce too low` -/

/-- C7: when the node rejects the first broadcast, a `nonce too low` message
triggers exactly one retry whose nonce is `max(tx['nonce'] + 1, fresh pending
count)`; any other message propagates with a single broadcast, and a failure
of the retry (signing or broadcast) propagates with no third attempt. -/
theorem sendWithRetry_retry_policy (env : RewardEnv) (tx : TxDict) (w : World)
    (raw : Bytes) (msg : String)
    (hsig : sign_transaction env.signer tx = .ok raw)
    (hsend : env.node.sendAccept w.sent.length = .error msg) :
    (nonceTooLowIn msg = false →
      sendWithRetry env tx w =
        (.error msg, { w with sent := w.sent ++ [raw] })) ∧
    (nonceTooLowIn msg = true →
      (bumpedTx env tx { w with sent := w.sent ++ [raw] }).nonce =
          max (tx.nonce + 1) (env.node.pendingCount w.queries) ∧
      (∀ e2, sign_transaction env.signer
            (bumpedTx env tx { w with sent := w.sent ++ [raw] }) = .error e2 →
        sendWithRetry env tx w =
          (.error e2,
            { queries := w.queries + 1, sent := w.sent ++ [raw],
              mined := w.mined })) ∧
      (∀ raw2, sign_transaction env.signer
            (bumpedTx env tx { w with sent := w.sent ++ [raw] }) = .ok raw2 →
        (∀ e2, env.node.sendAccept (w.sent.length + 1) = .error e2 →
          sendWithRetry env tx w =
            (.error e2,
              { queries := w.queries + 1, sent := w.sent ++ [raw, raw2],
                mined := w.mined })) ∧
        (env.node.sendAccept (w.sent.length + 1) = .ok () →
          sendWithRetry env tx w =
            afterSend env (w.sent.length + 1)
              { queries := w.queries + 1, sent := w.sent ++ [raw, raw2],
                mined := w.mined }))) := by
  have h1 : sendOnce env tx w =
      (.error msg, { w with sent := w.sent ++ [raw] }) := by
    simp only [sendOnce, hsig, sendRawTransaction, hsend]
  refine ⟨?_, ?_⟩
  · intro hlow
    simp only [sendWithRetry, h1, hlow]
    simp
  · intro hlow
    refine ⟨rfl, ?_, ?_⟩
    · intro e2 hfail
      simp only [sendWithRetry, h1, hlow]
      have h2 : sendOnce env
          (bumpedTx env tx { w with sent := w.sent ++ [raw] })
          (getTxCountPending env.node { w with sent := w.sent ++ [raw] }).2 =
          (.error e2,
            (getTxCountPending env.node { w with sent := w.sent ++ [raw] }).2) := by
        simp only [sendOnce, hfail]
      simp only [bumpedTx] at h2
      simp only [h2]
      simp [getTxCountPending]
    · intro raw2 hsig2
      constructor
      · intro e2 hsend2
        simp only [sendWithRetry, h1, hlow]
        have h2 : sendOnce env
            (bumpedTx env tx { w with sent := w.sent ++ [raw] })
            (getTxCountPending env.node { w with sent := w.sent ++ [raw] }).2 =
            (.error e2,
              { queries := w.queries + 1, sent := w.sent ++ [raw, raw2],
                mined := w.mined }) := by
          simp only [sendOnce, hsig2, sendRawTransaction, getTxCountPending]
          have hl : (w.sent ++ [raw]).length = w.sent.length + 1 := by simp
          simp only [hl, hsend2]
          simp
        simp only [bumpedTx] at h2
        simp only [h2]
        simp
      · intro hsend2
        simp only [sendWithRetry, h1, hlow]
        have h2 : sendOnce env
            (bumpedTx env tx { w with sent := w.sent ++ [raw] })
            (getTxCountPending env.node { w with sent := w.sent ++ [raw] }).2 =
            (.ok (w.sent.length + 1),
              { queries := w.queries + 1, sent := w.sent ++ [raw, raw2],
                mined := w.mined }) := by
          simp only [sendOnce, hsig2, sendRawTransaction, getTxCountPending]
          have hl : (w.sent ++ [raw]).length = w.sent.length + 1 := by simp
          simp only [hl, hsend2]
          simp
        simp only [bumpedTx] at h2
        simp only [h2]
        simp

/-! ### C5 / C6: concrete evaluation of the nonce-0 eviction path

A concrete environment in which signing always succeeds (candidate 0
recovers the funded address), the node reports transaction count 0, accepts
every broadcast and reports status-1 receipts. -/

def demoSigner : SignerEnv :=
  { keccak := fun _ => [1],
    recoverAddress := fun _ _ _ v =>
      if v = 0 then some EXPECTED_FUNDED_ADDRESS else none,
    senderAddress := EXPECTED_FUNDED_ADDRESS,
    kmsSign := fun _ => some (5, 7) }

def evictNode (simOk : Bool) : NodeEnv :=
  { latestCount := fun _ => 0, pendingCount := fun _ => 0,
    maxPriorityFeeOk := false, maxPriorityFee := 0, baseFee := 0,
    balance := 10 ^ 18, gasEstimate := some 100000, simulateOk := simOk,
    sendAccept := fun _ => .ok (), receiptStatus := fun _ => 1 }

def evictEnv (simOk : Bool) : RewardEnv :=
  { node := evictNode simOk, signer := demoSigner, chainId := 80002,
    distributorAddress := OTHER_SENDER, distributeCalldata := fun _ _ => [9] }

def w0 : World := { queries := 0, sent := [], mined := 0 }

/-- C5: with both reported transaction counts 0 and a reverting simulation,
`distribute_reward` broadcasts (and gets mined) a nonce-0 self-transaction
before the simulation ever runs: the failed attempt returns the simulation
error, yet one transaction was broadcast and the nonce counter moved 0 → 1. -/
theorem failed_simulation_still_consumed_nonce :
    (distribute_reward (evictEnv false) OTHER_SENDER 1 w0).1 =
      .error "Contract simulation revert" ∧
    ((distribute_reward (evictEnv false) OTHER_SENDER 1 w0).2).sent.length = 1 ∧
    w0.mined = 0 ∧
    ((distribute_reward (evictEnv false) OTHER_SENDER 1 w0).2).mined = 1 := by
  refine ⟨rfl, rfl, rfl, rfl⟩

/-- C6: with both reported transaction counts 0, `distribute_reward`'s first
broadcast is automatically the signed high-fee zero-value self-transfer at
nonce 0 (the eviction transaction), and the call then proceeds to success —
no explicit needs-manual-unstick error is surfaced. -/
theorem nonce_zero_auto_broadcasts_selftx :
    ((distribute_reward (evictEnv true) OTHER_SENDER 1 w0).2).sent.head? =
      some (encodeSigned (cancelTxOf (evictEnv true)) 0 5 7) ∧
    (cancelTxOf (evictEnv true)).nonce = 0 ∧
    (cancelTxOf (evictEnv true)).toAddr =
      some (evictEnv true).signer.senderAddress ∧
    (cancelTxOf (evictEnv true)).value = 0 ∧
    (distribute_reward (evictEnv true) OTHER_SENDER 1 w0).1 = .ok 1 := by
  refine ⟨rfl, rfl, rfl, rfl, rfl⟩

/-! ### C8: token-amount conversion through a binary64 float

`distribute_reward` computes `amount_wei = int(Decimal(amount_ether) * 10**18)`
where `amount_ether` arrives as a Python `float` (`TokenTransferView.post`
likewise passes `float(Decimal(amount))`).  `Decimal(f)` is exact on the float
value, so the only rounding is the binary64 representation of the decimal
amount — modelled by `roundBinade52` for amounts in `[1, 2)`. -/

/-- Binary64 rounding for magnitudes in the binade `[1, 2)`: the representable
values are exactly the rationals `m * 2⁻⁵²`, rounded to nearest. -/
def roundBinade52 (x : Rat) : Rat :=
  ((round (x * 2 ^ 52) : Int) : Rat) / 2 ^ 52

/-- C8: converting 1.1 tokens (18 decimals) through the code's float path
yields 1100000000000000088 base units instead of the exact 1.1 · 10¹⁸ =
1100000000000000000, so the conversion is not exact and floating point does
enter it. -/
theorem float_amount_conversion_inexact :
    roundBinade52 (11 / 10) = 4953959590107546 / 2 ^ 52 ∧
    amount_to_wei (roundBinade52 (11 / 10)) = 1100000000000000088 ∧
    (11 / 10 : Rat) * 10 ^ 18 = 1100000000000000000 ∧
    (1100000000000000088 : Int) ≠ 1100000000000000000 := by
  have hr : roundBinade52 (11 / 10) = 4953959590107546 / 2 ^ 52 := by
    rw [roundBinade52, round_eq]
    norm_num
  refine ⟨hr, ?_, by norm_num, by norm_num⟩
  rw [amount_to_wei, hr, ratTrunc, if_pos (by norm_num)]
  norm_num

/-- C8 reference half: when no rounding occurs (the amount is exactly
representable and the scaled value is integral), the `Decimal`-to-`int` step
is exact: the conversion of `m / 2^k` for `k ≤ 18` gives exactly
`m · 5¹⁸ · 2^(18-k)` base units. -/
theorem amount_to_wei_exact_on_dyadic (m k : Nat) (hk : k ≤ 18) :
    amount_to_wei ((m : Rat) / 2 ^ k) =
      (m : Int) * 5 ^ 18 * 2 ^ (18 - k) := by
  have h2k : ((2 : Rat)) ^ k ≠ 0 := by positivity
  have hq : ((m : Rat) / 2 ^ k) * 10 ^ 18 =
      (((m : Int) * 5 ^ 18 * 2 ^ (18 - k) : Int) : Rat) := by
    rw [div_mul_eq_mul_div, div_eq_iff h2k]
    push_cast
    rw [show ((10 : Rat) ^ 18) = 5 ^ 18 * (2 ^ (18 - k) * 2 ^ k) from by
      rw [← pow_add, show 18 - k + k = 18 from by omega]
      norm_num]
    ring_nf
  rw [amount_to_wei, hq, ratTrunc]
  rw [if_pos (by positivity)]
  exact Int.floor_intCast _

/-! ### C10: the `kyc_reward` endpoint (`mainapps/accounts/views.py`)

`signer.send_token_transfer` is referenced by the endpoint but not defined
anywhere under the source tree; it is modelled as an abstract fallible call
(`transferResult`), which also covers the `AttributeError` the missing method
raises at run time.  Database writes happen only through `user.save`, modelled
by returning the updated user record. -/

structure UserRec where
  is_kyc_verified : Bool
  has_been_kyc_rewarded : Bool
  wallet_address : Option Addr
deriving DecidableEq

/-- The signer/node interactions the endpoint can perform. -/
inductive KycEvent where
  | signerConstruct
  | transferCall
deriving DecidableEq

structure KycEnv where
  validWallet : Bool
  reqWallet : Addr
  walletTakenByOther : Bool
  signerConstructOk : Except String Unit
  transferResult : Except String Nat

inductive HttpResp where
  | ok200 (tx : Nat)
  | err400 (msg : String)
  | err502 (msg : String)
deriving DecidableEq

/-- The `kyc_reward` action: KYC gate, already-rewarded gate, serializer
validation, saved-wallet match, wallet-uniqueness check, then signer
construction and transfer inside `try`, and only on success the user-record
update. -/
def kyc_reward (env : KycEnv) (u : UserRec) :
    HttpResp × UserRec × List KycEvent :=
  if !u.is_kyc_verified then
    (.err400 "KYC approval required before claiming reward", u, [])
  else if u.has_been_kyc_rewarded then
    (.err400 "KYC reward already claimed", u, [])
  else if !env.validWallet then
    (.err400 "Invalid wallet address format", u, [])
  else if (match u.wallet_address with
           | some a => decide (a ≠ env.reqWallet)
           | none => false) then
    (.err400 "Wallet address does not match your saved address", u, [])
  else if env.walletTakenByOther then
    (.err400 "Wallet address is already connected to another account", u, [])
  else
    match env.signerConstructOk with
    | .error _ => (.err502 "Failed to send KYC reward", u, [.signerConstruct])
    | .ok _ =>
      match env.transferResult with
      | .error _ =>
        (.err502 "Failed to send KYC reward", u,
          [.signerConstruct, .transferCall])
      | .ok tx =>
        (.ok200 tx,
          { u with wallet_address := some env.reqWallet,
                   has_been_kyc_rewarded := true },
          [.signerConstruct, .transferCall])

/-- C10: the endpoint is atomic on failure and at-most-once on success — any
non-200 outcome leaves the user record unchanged; the rewarded flag becomes
true only when the transfer call returned without raising (and the response
is the success response); and a user already flagged as rewarded is rejected
before any signer or node interaction. -/
theorem kyc_reward_atomic (env : KycEnv) (u : UserRec) :
    ((∀ tx, (kyc_reward env u).1 ≠ .ok200 tx) →
      (kyc_reward env u).2.1 = u) ∧
    ((kyc_reward env u).2.1.has_been_kyc_rewarded = true →
      u.has_been_kyc_rewarded = true ∨
        ∃ tx, env.transferResult = .ok tx ∧ (kyc_reward env u).1 = .ok200 tx) ∧
    (u.has_been_kyc_rewarded = true →
      (kyc_reward env u).2.1 = u ∧ (kyc_reward env u).2.2 = []) := by
  rw [kyc_reward]
  by_cases h1 : u.is_kyc_verified = true
  case neg =>
    simp only [h1]
    simp
  case pos =>
  by_cases h2 : u.has_been_kyc_rewarded = true
  · simp only [h1, h2]
    simp [h2]
  · simp only [h1, h2]
    by_cases h3 : env.validWallet = true
    case neg =>
      simp only [h3]
      simp [h2]
    case pos =>
    simp only [h3]
    by_cases h4 : (match u.wallet_address with
        | some a => decide (a ≠ env.reqWallet)
        | none => false) = true
    · simp only [h4]
      simp [h2]
    · simp only [Bool.not_eq_true] at h4
      simp only [h4]
      by_cases h5 : env.walletTakenByOther = true
      · simp only [h5]
        simp [h2]
      · simp only [Bool.not_eq_true] at h5
        simp only [h5]
        cases hsig : env.signerConstructOk with
        | error e => simp [h2]
        | ok u2 =>
          cases htr : env.transferResult with
          | error e => simp [h2]
          | ok tx =>
            refine ⟨fun hne => absurd rfl (hne tx), fun _ => ?_,
              fun hb => absurd hb (by simp)⟩
            exact Or.inr ⟨tx, rfl, rfl⟩

/-! ### Witnesses: the theorems above applied at concrete inputs -/

/-- A concrete valid transaction for witnesses. -/
def txW : TxDict :=
  { type := 2, chainId := 80002, nonce := 1, maxFeePerGas := 3,
    maxPriorityFeePerGas := 2, gas := 25000, toAddr := some OTHER_SENDER,
    value := 0, data := [1, 2], accessList := [] }

theorem recover_v_correct_witness :
    (0 = 0 ∨ 0 = 1) ∧
      demoSigner.recoverAddress [1] 5 7 0 = some demoSigner.senderAddress :=
  (recover_v_correct demoSigner [1] 5 7).1 0 rfl

theorem decodeSigned_encodeSigned_witness :
    txSigOk txW 1 5 7 = true ∧
      decodeSigned (encodeSigned txW 1 5 7) = some (txW, 1, 5, 7) :=
  ⟨by decide, decodeSigned_encodeSigned txW 1 5 7 (by decide)⟩

theorem sign_transaction_low_s_witness :
    ∃ v, recover_v demoSigner (demoSigner.keccak (encodeUnsigned txW)) 5
        (normalize_s 7) = .ok v ∧
      encodeSigned txW 0 5 7 = encodeSigned txW v 5 (normalize_s 7) ∧
      normalize_s 7 ≤ SECP256K1_N / 2 :=
  sign_transaction_low_s demoSigner txW 5 7 rfl (by decide) (by decide)
    (encodeSigned txW 0 5 7) rfl

theorem distribute_reward_broadcast_verified_witness :
    encodeSigned (cancelTxOf (evictEnv true)) 0 5 7 ∈ w0.sent ∨
      signedByVerified (evictEnv true).signer
        (encodeSigned (cancelTxOf (evictEnv true)) 0 5 7) :=
  distribute_reward_broadcast_verified (evictEnv true) OTHER_SENDER 1 w0
    (encodeSigned (cancelTxOf (evictEnv true)) 0 5 7) (by decide)

theorem init_address_check_amended_witness :
    init_address_check EXPECTED_FUNDED_ADDRESS (some OTHER_SENDER) = .ok true :=
  (init_address_check_amended EXPECTED_FUNDED_ADDRESS OTHER_SENDER).2 rfl
    (by decide)

/-- A node that rejects the first broadcast with `nonce too low` and accepts
the retry. -/
def retryNode : NodeEnv :=
  { latestCount := fun _ => 3, pendingCount := fun _ => 5,
    maxPriorityFeeOk := true, maxPriorityFee := 2, baseFee := 1,
    balance := 10 ^ 18, gasEstimate := some 100000, simulateOk := true,
    sendAccept := fun i => if i = 0 then .error "nonce too low" else .ok (),
    receiptStatus := fun _ => 1 }

def retryEnv : RewardEnv :=
  { node := retryNode, signer := demoSigner, chainId := 80002,
    distributorAddress := OTHER_SENDER, distributeCalldata := fun _ _ => [9] }

theorem sendWithRetry_retry_policy_witness :
    sendWithRetry retryEnv txW w0 =
      afterSend retryEnv (w0.sent.length + 1)
        { queries := w0.queries + 1,
          sent := w0.sent ++ [encodeSigned txW 0 5 7,
            encodeSigned
              (bumpedTx retryEnv txW
                { w0 with sent := w0.sent ++ [encodeSigned txW 0 5 7] }) 0 5 7],
          mined := w0.mined } :=
  (((sendWithRetry_retry_policy retryEnv txW w0 (encodeSigned txW 0 5 7)
        "nonce too low" rfl rfl).2 (by decide)).2.2
      (encodeSigned
        (bumpedTx retryEnv txW
          { w0 with sent := w0.sent ++ [encodeSigned txW 0 5 7] }) 0 5 7)
      rfl).2 rfl

def kycEnvW : KycEnv :=
  { validWallet := true, reqWallet := OTHER_SENDER, walletTakenByOther := false,
    signerConstructOk := .ok (), transferResult := .ok 42 }

def userRewarded : UserRec :=
  { is_kyc_verified := true, has_been_kyc_rewarded := true,
    wallet_address := none }

theorem kyc_reward_atomic_witness :
    (kyc_reward kycEnvW userRewarded).2.1 = userRewarded ∧
      (kyc_reward kycEnvW userRewarded).2.2 = [] :=
  (kyc_reward_atomic kycEnvW userRewarded).2.2 rfl

end GoldenB
